import Mathlib

/-!
Shallow embedding of the macos-routing-table crate (src/route_entry.rs,
src/routing_table.rs, src/entity.rs, src/routing_flag.rs) together with the
behaviour of the external library functions the crate calls:
`std::net::Ipv4Addr::from_str`, `std::net::Ipv6Addr::from_str`,
`std::net::IpAddr::from_str`, `u8`/`u64` decimal parsing,
`u8::from_str_radix(-, 16)`, the `cidr` crate's `AnyIpCidr` (`FromStr`,
`contains`, `network_length`, `is_host_address`, `first_address`, `Display`)
and the `mac_address` crate's `MacAddress::FromStr`.

Machine integers are modelled as `Nat` (an IPv4 address is a `Nat < 2^32`,
an IPv6 address a `Nat < 2^128`, both kept abstract as `Nat`).  Rust's
`HashSet<RoutingFlag>` is modelled as the list of decoded flags (no claim
inspects the flag set), and the `HashMap<String, Vec<IpAddr>>` as an
association list holding each key once (only keyed lookup and
entry-or-insert-then-push are used).  A Rust panic is modelled as `none` of
an outer `Option` layer.
-/

/-- Internet protocols (`Protocol` in the crate root). -/
inductive Protocol
  | V4
  | V6
deriving DecidableEq

/-- `std::net::IpAddr`: a v4 or v6 address, value as `Nat`. -/
inductive IpAddr
  | V4 (a : Nat)
  | V6 (a : Nat)
deriving DecidableEq

/-- The `cidr` crate's `AnyIpCidr`: `Any`, or a network of a concrete
family given by its network address and network (prefix) length. -/
inductive AnyIpCidr
  | Any
  | V4 (addr : Nat) (len : Nat)
  | V6 (addr : Nat) (len : Nat)
deriving DecidableEq

/-- The `mac_address` crate's `MacAddress` (six bytes). -/
structure MacAddress where
  bytes : List Nat
deriving DecidableEq

/-- `Entity` from src/entity.rs. -/
inductive Entity
  | Default
  | Cidr (c : AnyIpCidr)
  | Link (s : String)
  | Mac (m : MacAddress)
deriving DecidableEq

/-- `Destination` (entity plus optional zone) from the crate root. -/
structure Destination where
  entity : Entity
  zone : Option String
deriving DecidableEq

/-- `RoutingFlag` from src/routing_flag.rs. -/
inductive RoutingFlag
  | Proto1
  | Proto2
  | Proto3
  | Blackhole
  | Broadcast
  | Cloning
  | PrCloning
  | Dynamic
  | Gateway
  | Host
  | IfScope
  | IfRef
  | LlInfo
  | Modified
  | Multicast
  | Reject
  | Router
  | Static
  | Up
  | WasCloned
  | XResolve
  | Proxy
  | Global
  | Unknown
deriving DecidableEq

/-- `RouteEntry` from src/route_entry.rs.  `expires` is the duration in
whole seconds (`Duration::from_secs`). -/
structure RouteEntry where
  proto : Protocol
  dest : Destination
  gateway : Destination
  flags : List RoutingFlag
  net_if : String
  expires : Option Nat
deriving DecidableEq

/-- `route_entry::Error`.  The foreign error payloads (`NetworkParseError`,
`MacParseError`, `ParseIntError`) carry no information a claim inspects and
are dropped; the `String`/`usize` payloads are kept. -/
inductive RError
  | ParseDestination (value : String)
  | ParseMacAddr (dest : String)
  | ParseIPv4AddrBadInt (addr : String)
  | ParseIPv4AddrNComps (n_comps : Nat) (addr : String)
  | ParseExpiration (expiration : String)
  | MissingDestination
  | MissingGateway
  | MissingInterface
deriving DecidableEq

/-- `routing_table::Error`, restricted to the parse errors (the netstat
execution errors are out of the parsing core). -/
inductive TError
  | NetstatParseNoHeaders (sectionName : String)
  | RouteEntryParse (e : RError)
  | EntryBeforeProto
deriving DecidableEq

/-- `RoutingTable` from src/routing_table.rs. -/
structure RoutingTable where
  routes : List RouteEntry
  if_router : List (String × List IpAddr)
deriving DecidableEq

/-! ## Character and list-of-characters primitives -/

/-- Rust `char::is_ascii_whitespace`. -/
def isAsciiWs (c : Char) : Bool :=
  c == ' ' || c == '\t' || c == '\n' || c == '\x0c' || c == '\r'

/-- Hex digit test as Rust's `char::to_digit(16)` accepts. -/
def isHexDigitC (c : Char) : Bool :=
  c.isDigit || ('a' ≤ c && c ≤ 'f') || ('A' ≤ c && c ≤ 'F')

/-- Value of a hex digit. -/
def hexDigitVal (c : Char) : Nat :=
  if c.isDigit then c.toNat - 48
  else if 'a' ≤ c && c ≤ 'f' then c.toNat - 87
  else c.toNat - 55

/-- Decimal value of a digit list. -/
def decDigitsVal (ds : List Char) : Nat :=
  ds.foldl (fun a c => a * 10 + (c.toNat - 48)) 0

/-- Hexadecimal value of a digit list. -/
def hexDigitsVal (ds : List Char) : Nat :=
  ds.foldl (fun a c => a * 16 + hexDigitVal c) 0

/-- Rust `str::split` with a separator predicate: the pieces between
separator characters, keeping empty pieces (an empty input gives one empty
piece, like Rust). -/
def splitBy (p : Char → Bool) : List Char → List (List Char)
  | [] => [[]]
  | c :: rest =>
    if p c then [] :: splitBy p rest
    else
      match splitBy p rest with
      | [] => [[c]]
      | h :: t => (c :: h) :: t

/-- `listStartsWith pre cs` : `pre` is a leading run of `cs`. -/
def listStartsWith : List Char → List Char → Bool
  | [], _ => true
  | _ :: _, [] => false
  | p :: ps, c :: cs => p == c && listStartsWith ps cs

/-- Rust `str::starts_with` on our strings. -/
def startsWithStr (s pat : String) : Bool :=
  listStartsWith pat.data s.data

/-- Rust `str::split_ascii_whitespace`: whitespace-separated tokens, no
empty tokens. -/
def splitAsciiWhitespace (s : String) : List String :=
  ((splitBy isAsciiWs s.data).filter (fun p => p ≠ [])).map String.mk

/-- Drop one trailing carriage return, as Rust `str::lines` does on each
newline-terminated line. -/
def stripCR (cs : List Char) : List Char :=
  if cs.getLast? = some '\r' then cs.dropLast else cs

/-- Rust `str::lines`: split on newline; every piece before the last was
newline-terminated and loses one trailing carriage return; an empty last
piece is the absent line after a final newline, and a non-empty last piece
(no final newline) keeps its characters as they are. -/
def rustLines (s : String) : List String :=
  let ps := splitBy (fun c => c == '\n') s.data
  let body := ps.dropLast.map stripCR
  (match ps.getLast? with
    | some [] => body
    | some lastPiece => body ++ [lastPiece]
    | none => body).map String.mk

/-! ## Unsigned integer parsing (Rust core `from_str_radix`) -/

/-- Shared digit-run parse: non-empty, all decimal digits, value within
`bound` (per-step checked arithmetic fails exactly when the value
overflows). -/
def parseUIntCore (cs : List Char) (bound : Nat) : Option Nat :=
  if cs ≠ [] ∧ cs.all Char.isDigit ∧ decDigitsVal cs ≤ bound then
    some (decDigitsVal cs)
  else none

/-- Strip the one optional leading plus sign Rust's unsigned
`from_str_radix` accepts. -/
def stripPlus (cs : List Char) : List Char :=
  match cs with
  | c :: rest => if c = '+' then rest else c :: rest
  | [] => []

/-- Rust `u8::from_str` (radix 10): one optional leading plus sign, then
decimal digits, value at most 255. -/
def parseU8 (s : String) : Option Nat :=
  parseUIntCore (stripPlus s.data) 255

/-- Rust `u64::from_str`. -/
def parseU64 (s : String) : Option Nat :=
  parseUIntCore (stripPlus s.data) (2 ^ 64 - 1)

/-- Hex digit-run parse for `u8::from_str_radix(-, 16)`. -/
def parseUIntHexCore (cs : List Char) (bound : Nat) : Option Nat :=
  if cs ≠ [] ∧ cs.all isHexDigitC ∧ hexDigitsVal cs ≤ bound then
    some (hexDigitsVal cs)
  else none

/-- Rust `u8::from_str_radix(-, 16)`. -/
def parseU8Hex (s : String) : Option Nat :=
  parseUIntHexCore (stripPlus s.data) 255

/-! ## `std::net` address parsing (core::net::parser recursive descent) -/

/-- One IPv4 octet as std's `read_number(10, max 3 digits, no leading
zero)` reads it: the leading digit run, at most 3 digits, no leading zero
unless the single digit 0, value at most 255; returns the rest of the
input. -/
def readOctet (cs : List Char) : Option (Nat × List Char) :=
  let ds := cs.takeWhile Char.isDigit
  if ds = [] then none
  else if 3 < ds.length then none
  else if ds.headD '0' = '0' ∧ 1 < ds.length then none
  else if 255 < decDigitsVal ds then none
  else some (decDigitsVal ds, cs.drop ds.length)

/-- Consume one expected character. -/
def expectChar (c : Char) : List Char → Option (List Char)
  | x :: rest => if x = c then some rest else none
  | [] => none

/-- std's `read_ipv4_addr`: four dot-separated octets, value as a 32-bit
`Nat`; atomic (failure leaves the input unconsumed at the call site). -/
def readIpv4At (cs : List Char) : Option (Nat × List Char) :=
  match readOctet cs with
  | none => none
  | some (a, r1) =>
    match expectChar '.' r1 with
    | none => none
    | some r2 =>
      match readOctet r2 with
      | none => none
      | some (b, r3) =>
        match expectChar '.' r3 with
        | none => none
        | some r4 =>
          match readOctet r4 with
          | none => none
          | some (c, r5) =>
            match expectChar '.' r5 with
            | none => none
            | some r6 =>
              match readOctet r6 with
              | none => none
              | some (d, r7) => some (((a * 256 + b) * 256 + c) * 256 + d, r7)

/-- One 16-bit group as std's `read_number(16, max 4 digits)` reads it. -/
def readHex16 (cs : List Char) : Option (Nat × List Char) :=
  let ds := cs.takeWhile isHexDigitC
  if ds = [] ∨ 4 < ds.length then none
  else some (hexDigitsVal ds, cs.drop ds.length)

/-- std's `read_separator`: from the second group on, a colon precedes the
inner parse; atomic. -/
def sepRead (first : Bool) (p : List Char → Option (Nat × List Char))
    (cs : List Char) : Option (Nat × List Char) :=
  if first then p cs
  else
    match cs with
    | ':' :: rest => p rest
    | _ => none

/-- std's `read_groups` with `slots` remaining slots: reads colon-separated
16-bit groups, attempting (when at least two slots remain) a trailing
dotted-quad IPv4 address that fills two groups.  Returns the groups read,
the unconsumed input, and whether the run ended with an embedded IPv4
address. -/
def readGroupsAux : Nat → Bool → List Char → List Nat × List Char × Bool
  | 0, _, cs => ([], cs, false)
  | slots + 1, first, cs =>
    match (if 1 ≤ slots then sepRead first readIpv4At cs else none) with
    | some (v4, rest) => ([v4 / 65536, v4 % 65536], rest, true)
    | none =>
      match sepRead first readHex16 cs with
      | some (g, rest) =>
        let (gs, rest2, tailV4) := readGroupsAux slots false rest
        (g :: gs, rest2, tailV4)
      | none => ([], cs, false)

/-- The 128-bit value of a list of 16-bit groups. -/
def ipv6OfGroups (gs : List Nat) : Nat :=
  gs.foldl (fun acc g => acc * 65536 + g) 0

/-- std's `read_ipv6_addr`: up to 8 head groups; a full head is the
address; otherwise (no embedded IPv4 in the head) a literal `::` followed
by at most `8 - head - 1` tail groups, zero-filled in between. -/
def readIpv6At (cs : List Char) : Option (Nat × List Char) :=
  match readGroupsAux 8 true cs with
  | (head, rest, headV4) =>
    if head.length = 8 then some (ipv6OfGroups head, rest)
    else if headV4 then none
    else
      match rest with
      | ':' :: ':' :: rest2 =>
        match readGroupsAux (8 - (head.length + 1)) true rest2 with
        | (tail, rest3, _) =>
          some (ipv6OfGroups (head ++ List.replicate (8 - head.length - tail.length) 0 ++ tail),
            rest3)
      | _ => none

/-- `Ipv4Addr::from_str`: the dotted-quad parse consuming the entire
string. -/
def strictIpv4? (s : String) : Option Nat :=
  match readIpv4At s.data with
  | some (v, []) => some v
  | _ => none

/-- `Ipv6Addr::from_str`. -/
def parseIpv6 (s : String) : Option Nat :=
  match readIpv6At s.data with
  | some (v, []) => some v
  | _ => none

/-- `IpAddr::from_str`: the IPv4 read, falling back to the IPv6 read only
when the IPv4 read itself fails; the entire string must be consumed. -/
def parseIpAddr (s : String) : Option IpAddr :=
  match readIpv4At s.data with
  | some (v, rest) => if rest = [] then some (.V4 v) else none
  | none =>
    match readIpv6At s.data with
    | some (v, rest) => if rest = [] then some (.V6 v) else none
    | none => none

/-! ## The `cidr` crate's `AnyIpCidr` -/

/-- `Cidr::new`: network length within the family width and all host bits
zero, else a parse error. -/
def cidrNew (addr : IpAddr) (len : Nat) : Option AnyIpCidr :=
  match addr with
  | .V4 a => if len ≤ 32 ∧ a % 2 ^ (32 - len) = 0 then some (.V4 a len) else none
  | .V6 a => if len ≤ 128 ∧ a % 2 ^ (128 - len) = 0 then some (.V6 a len) else none

/-- `AnyIpCidr::new_host`: a full-width network holding one address. -/
def newHost : IpAddr → AnyIpCidr
  | .V4 a => .V4 a 32
  | .V6 a => .V6 a 128

/-- `AnyIpCidr::from_str`: the literal `any`, or `address/length`, or a
bare host address. -/
def anyIpCidrFromStr (s : String) : Option AnyIpCidr :=
  if s = "any" then some .Any
  else
    match s.data.findIdx? (fun c => c == '/') with
    | none => (parseIpAddr s).map newHost
    | some pos =>
      match parseIpAddr (String.mk (s.data.take pos)) with
      | none => none
      | some addr =>
        match parseU8 (String.mk (s.data.drop (pos + 1))) with
        | none => none
        | some len => cidrNew addr len

/-- `AnyIpCidr::network_length`: `None` exactly for `Any`. -/
def AnyIpCidr.network_length : AnyIpCidr → Option Nat
  | .Any => none
  | .V4 _ l => some l
  | .V6 _ l => some l

/-- `AnyIpCidr::contains`: `Any` holds every address; a concrete network
holds the addresses of its own family whose leading `len` bits match. -/
def AnyIpCidr.contains : AnyIpCidr → IpAddr → Bool
  | .Any, _ => true
  | .V4 n l, .V4 a => a >>> (32 - l) == n >>> (32 - l)
  | .V4 _ _, .V6 _ => false
  | .V6 n l, .V6 a => a >>> (128 - l) == n >>> (128 - l)
  | .V6 _ _, .V4 _ => false

/-- `AnyIpCidr::is_host_address`: full-width network length. -/
def AnyIpCidr.is_host_address : AnyIpCidr → Bool
  | .Any => false
  | .V4 _ l => l == 32
  | .V6 _ l => l == 128

/-- `AnyIpCidr::first_address`: `None` for `Any`, else the network
address. -/
def AnyIpCidr.first_address : AnyIpCidr → Option IpAddr
  | .Any => none
  | .V4 n _ => some (.V4 n)
  | .V6 n _ => some (.V6 n)

/-! ## Address and CIDR display (for the zone re-assembly path) -/

/-- `Ipv4Addr` display: dotted quad. -/
def ipv4ToString (n : Nat) : String :=
  toString (n / 16777216 % 256) ++ "." ++ toString (n / 65536 % 256) ++ "." ++
    toString (n / 256 % 256) ++ "." ++ toString (n % 256)

/-- The eight 16-bit segments of an IPv6 value. -/
def ipv6Segments (n : Nat) : List Nat :=
  [n >>> 112 % 65536, n >>> 96 % 65536, n >>> 80 % 65536, n >>> 64 % 65536,
    n >>> 48 % 65536, n >>> 32 % 65536, n >>> 16 % 65536, n % 65536]

/-- Leftmost-longest run of zero segments (std's `zeroes` span: strictly
longer runs displace the recorded one). -/
def zeroSpanAux : List Nat → Nat → Nat → Nat → Nat → Nat → Nat × Nat
  | [], _, _, _, bestStart, bestLen => (bestStart, bestLen)
  | g :: rest, i, curStart, curLen, bestStart, bestLen =>
    if g = 0 then
      let curStart' := if curLen = 0 then i else curStart
      let curLen' := curLen + 1
      if bestLen < curLen' then zeroSpanAux rest (i + 1) curStart' curLen' curStart' curLen'
      else zeroSpanAux rest (i + 1) curStart' curLen' bestStart bestLen
    else zeroSpanAux rest (i + 1) 0 0 bestStart bestLen

/-- Entry point for the zero-run search. -/
def zeroSpan (segs : List Nat) : Nat × Nat :=
  zeroSpanAux segs 0 0 0 0 0

/-- One segment in lowercase hex without leading zeros. -/
def fmtSeg (g : Nat) : String :=
  String.mk (Nat.toDigits 16 g)

/-- Colon-joined segments (std's `fmt_subslice`). -/
def fmtSubslice (segs : List Nat) : String :=
  String.intercalate ":" (segs.map fmtSeg)

/-- `Ipv6Addr` display: the IPv4-mapped special case, else zero-run
compression when the longest run has length at least 2. -/
def ipv6ToString (n : Nat) : String :=
  match ipv6Segments n with
  | [0, 0, 0, 0, 0, 65535, g, h] => "::ffff:" ++ ipv4ToString (g * 65536 + h)
  | segs =>
    match zeroSpan segs with
    | (start, len) =>
      if 1 < len then
        fmtSubslice (segs.take start) ++ "::" ++ fmtSubslice (segs.drop (start + len))
      else fmtSubslice segs

/-- `IpAddr` display. -/
def ipAddrToString : IpAddr → String
  | .V4 a => ipv4ToString a
  | .V6 a => ipv6ToString a

/-- `AnyIpCidr` display (non-alternate): `any`, a bare address for a host
network, else `address/length`. -/
def anyIpCidrDisplay : AnyIpCidr → String
  | .Any => "any"
  | .V4 a l => if l = 32 then ipv4ToString a else ipv4ToString a ++ "/" ++ toString l
  | .V6 a l => if l = 128 then ipv6ToString a else ipv6ToString a ++ "/" ++ toString l

/-! ## The `mac_address` crate -/

/-- `MacAddress::from_str`: split on colons and dashes into exactly six
parts, each a hex byte. -/
def macFromStr (s : String) : Option MacAddress :=
  let parts := splitBy (fun c => c == ':' || c == '-') s.data
  if parts.length = 6 then
    (parts.mapM (fun p => parseU8Hex (String.mk p))).map MacAddress.mk
  else none

/-! ## src/routing_flag.rs -/

/-- `impl From<char> for RoutingFlag`. -/
def RoutingFlag.fromChar (flag_c : Char) : RoutingFlag :=
  match flag_c with
  | '1' => .Proto1
  | '2' => .Proto2
  | '3' => .Proto3
  | 'B' => .Blackhole
  | 'C' => .Cloning
  | 'D' => .Dynamic
  | 'G' => .Gateway
  | 'H' => .Host
  | 'I' => .IfScope
  | 'L' => .LlInfo
  | 'M' => .Modified
  | 'R' => .Reject
  | 'S' => .Static
  | 'U' => .Up
  | 'W' => .WasCloned
  | 'X' => .XResolve
  | 'Y' => .Proxy
  | 'b' => .Broadcast
  | 'c' => .PrCloning
  | 'g' => .Global
  | 'i' => .IfRef
  | 'm' => .Multicast
  | 'r' => .Router
  | _ => .Unknown

/-! ## src/route_entry.rs: field parsers -/

/-- `parse_flags`: every character decoded (the `HashSet` collected from it
is modelled as the decoded list). -/
def parse_flags (flags_s : String) : List RoutingFlag :=
  flags_s.data.map RoutingFlag.fromChar

/-- `parse_expire`: `!` is no expiration, else an unsigned second count. -/
def parse_expire (s : String) : Except RError (Option Nat) :=
  if s = "!" then .ok none
  else
    match parseU64 s with
    | some n => .ok (some n)
    | none => .error (.ParseExpiration s)

/-- The dot-split parts of a token, each parsed as a `u8` (the
`split('.').map(str::parse).collect::<Result<Vec<u8>, _>>()` step of
`parse_ipv4dest`). -/
def dotParts (s : String) : Option (List Nat) :=
  (splitBy (fun c => c == '.') s.data).mapM (fun p => parseU8 (String.mk p))

/-- `Ipv4Addr::new` packing of four octets. -/
def pack4 (a b c d : Nat) : Nat :=
  ((a * 256 + b) * 256 + c) * 256 + d

/-- `parse_ipv4dest`: the strict dotted-quad parse, then the
`inet_addr(3)`-style packing by component count. -/
def parse_ipv4dest (dest : String) : Except RError Nat :=
  match strictIpv4? dest with
  | some v => .ok v
  | none =>
    match dotParts dest with
    | none => .error (.ParseIPv4AddrBadInt dest)
    | some parts =>
      match parts with
      | [p0, p1, p2] => .ok (pack4 p0 p1 0 p2)
      | [p0, p1] => .ok (pack4 p0 0 0 p1)
      | [p0] => .ok (pack4 0 0 0 p0)
      | other => .error (.ParseIPv4AddrNComps other.length dest)

/-- `parse_simple_destination`. -/
def parse_simple_destination (dest : String) : Except RError Entity :=
  if dest = "default" then .ok .Default
  else if dest.data.contains '/' then
    match anyIpCidrFromStr dest with
    | some c => .ok (.Cidr c)
    | none => .error (.ParseDestination dest)
  else if dest.data.contains '.' then
    match parse_ipv4dest dest with
    | .ok v => .ok (.Cidr (newHost (.V4 v)))
    | .error _ =>
      match macFromStr (String.mk (dest.data.map (fun c => if c = '.' then ':' else c))) with
      | some m => .ok (.Mac m)
      | none => .error (.ParseMacAddr dest)
  else if dest.data.contains ':' then
    match parseIpv6 dest with
    | some v => .ok (.Cidr (newHost (.V6 v)))
    | none =>
      match macFromStr dest with
      | some m => .ok (.Mac m)
      | none => .error (.ParseMacAddr dest)
  else
    match parse_ipv4dest dest with
    | .ok v => .ok (.Cidr (newHost (.V4 v)))
    | .error e => .error e

/-- `parse_destination`: the `link` fast path, the zone (`%`) split with
optional bit-length re-assembly through the cidr display, or the simple
path. -/
def parse_destination (dest : String) : Except RError Destination :=
  if startsWithStr dest "link" then .ok ⟨.Link dest, none⟩
  else
    match dest.data.findIdx? (fun c => c == '%') with
    | some pos =>
      let addrS := String.mk (dest.data.take pos)
      match anyIpCidrFromStr addrS with
      | none => .error (.ParseDestination addrS)
      | some addr =>
        let parts := splitBy (fun c => c == '/') (dest.data.drop pos)
        let zone := some (String.mk (parts.headD []))
        match parts[1]? with
        | some bits =>
          match parse_simple_destination (anyIpCidrDisplay addr ++ String.mk bits) with
          | .ok e => .ok ⟨e, zone⟩
          | .error e => .error e
        | none => .ok ⟨.Cidr addr, zone⟩
    | none =>
      match parse_simple_destination dest with
      | .ok e => .ok ⟨e, none⟩
      | .error e => .error e

/-! ## src/route_entry.rs: `RouteEntry::parse`, `contains`, `most_precise` -/

/-- The mutable state of `RouteEntry::parse`'s header/field scan. -/
structure ScanState where
  flags : List RoutingFlag
  dest : Option Destination
  gateway : Option Destination
  net_if : Option String
  expires : Option Nat
deriving DecidableEq

/-- The scan's initial state. -/
def initScan : ScanState :=
  ⟨[], none, none, none, none⟩

/-- The header/field scan of `RouteEntry::parse`: each recognized header
stores its parsed field, unrecognized headers are skipped, a field parse
error aborts. -/
def scanFields : List (String × String) → ScanState → Except RError ScanState
  | [], st => .ok st
  | (header, field) :: rest, st =>
    if header = "Destination" then
      match parse_destination field with
      | .error e => .error e
      | .ok d => scanFields rest { st with dest := some d }
    else if header = "Gateway" then
      match parse_destination field with
      | .error e => .error e
      | .ok d => scanFields rest { st with gateway := some d }
    else if header = "Flags" then scanFields rest { st with flags := parse_flags field }
    else if header = "Netif" then scanFields rest { st with net_if := some field }
    else if header = "Expire" then
      match parse_expire field with
      | .error e => .error e
      | .ok e => scanFields rest { st with expires := e }
    else scanFields rest st

/-- The `ok_or` chain building the `RouteEntry` (evaluated in struct-literal
order: destination, then gateway, then interface). -/
def finalizeScan (proto : Protocol) (st : ScanState) : Except RError RouteEntry :=
  match st.dest with
  | none => .error .MissingDestination
  | some dest =>
    match st.gateway with
    | none => .error .MissingGateway
    | some gateway =>
      match st.net_if with
      | none => .error .MissingInterface
      | some net_if => .ok ⟨proto, dest, gateway, st.flags, net_if, st.expires⟩

/-- `RouteEntry::parse` on an already-tokenized field list. -/
def parseFields (proto : Protocol) (fields : List String) (headers : List String) :
    Except RError RouteEntry :=
  match scanFields (headers.zip fields) initScan with
  | .error e => .error e
  | .ok st => finalizeScan proto st

/-- `RouteEntry::parse`. -/
def RouteEntry.parse (proto : Protocol) (line : String) (headers : List String) :
    Except RError RouteEntry :=
  parseFields proto (splitAsciiWhitespace line) headers

/-- `RouteEntry::contains`. -/
def RouteEntry.contains (self : RouteEntry) (addr : IpAddr) : Bool :=
  match self.dest.entity with
  | .Cidr cidr => cidr.contains addr
  | .Default =>
    match self.gateway.entity with
    | .Cidr _ =>
      match addr with
      | .V4 _ => self.proto == .V4
      | .V6 _ => self.proto == .V6
    | .Link _ | .Mac _ => true
    | .Default => false
  | _ => false

/-- `RouteEntry::most_precise`; `none` models the
`panic!("Can't compare gateway CIDR of 'Any' type")` branches. -/
def RouteEntry.most_precise (self other : RouteEntry) : Option RouteEntry :=
  match self.dest.entity with
  | .Mac _ => some self
  | .Link _ =>
    match other.dest.entity with
    | .Mac _ => some other
    | _ => some self
  | .Cidr cidr =>
    match other.dest.entity with
    | .Mac _ | .Link _ => some other
    | .Cidr other_cidr =>
      match cidr.network_length with
      | some cidr_nl =>
        match other_cidr.network_length with
        | some other_nl => if other_nl ≤ cidr_nl then some self else some other
        | none => none
      | none => none
    | .Default => some self
  | .Default =>
    match other.dest.entity with
    | .Default => some self
    | _ => some other

/-! ## src/routing_table.rs -/

/-- Keyed lookup in the association list modelling the
`HashMap<String, Vec<IpAddr>>`. -/
def listLookup (m : List (String × List IpAddr)) (k : String) : Option (List IpAddr) :=
  match m with
  | [] => none
  | (k', l) :: rest => if k' = k then some l else listLookup rest k

/-- `entry(k).or_insert_with(Vec::new)` followed by `push a`. -/
def mapUpsert (m : List (String × List IpAddr)) (k : String) (a : IpAddr) :
    List (String × List IpAddr) :=
  match m with
  | [] => [(k, [a])]
  | (k', l) :: rest => if k' = k then (k', l ++ [a]) :: rest else (k', l) :: mapUpsert rest k a

/-- The default-gateway indexing step of `from_netstat_output`: a parsed
row with a `Default` destination and a host-address `Cidr` gateway records
the gateway address under the row's interface.  The `none` inner branch
models `first_address().unwrap_or_else(|| unreachable!())`; it is provably
never taken because `is_host_address` excludes `Any`. -/
def gwStep (m : List (String × List IpAddr)) (route : RouteEntry) :
    List (String × List IpAddr) :=
  match route.dest.entity, route.gateway.entity with
  | .Default, .Cidr cidr =>
    if cidr.is_host_address then
      match cidr.first_address with
      | some gw => mapUpsert m route.net_if gw
      | none => m
    else m
  | _, _ => m

/-- The skip test of `from_netstat_output`'s loop: empty lines and the
banner line. -/
def skipLine (line : String) : Bool :=
  line == "" || startsWithStr line "Routing table"

/-- The line loop of `from_netstat_output`: carries the current headers,
the routes parsed so far, the current protocol and the default-gateway
index. -/
def buildLoop : List String → List String → List RouteEntry → Option Protocol →
    List (String × List IpAddr) → Except TError RoutingTable
  | [], _, routes, _, m => .ok ⟨routes, m⟩
  | line :: rest, headers, routes, proto, m =>
    if skipLine line then buildLoop rest headers routes proto m
    else if line = "Internet:" then
      match rest with
      | [] => .error (.NetstatParseNoHeaders line)
      | hline :: rest2 => buildLoop rest2 (splitAsciiWhitespace hline) routes (some .V4) m
    else if line = "Internet6:" then
      match rest with
      | [] => .error (.NetstatParseNoHeaders line)
      | hline :: rest2 => buildLoop rest2 (splitAsciiWhitespace hline) routes (some .V6) m
    else
      match proto with
      | none => .error .EntryBeforeProto
      | some p =>
        match RouteEntry.parse p line headers with
        | .error e => .error (.RouteEntryParse e)
        | .ok route => buildLoop rest headers (routes ++ [route]) (some p) (gwStep m route)

/-- `RoutingTable::from_netstat_output`. -/
def RoutingTable.from_netstat_output (output : String) : Except TError RoutingTable :=
  buildLoop (rustLines output) [] [] none []

/-- `RoutingTable::find_route_entry`: filter to the containing routes and
fold with `most_precise`.  The outer `Option` is the panic layer (`none` =
the fold panicked); `some none` is a normal `None` return. -/
def RoutingTable.find_route_entry (self : RoutingTable) (addr : IpAddr) :
    Option (Option RouteEntry) :=
  (self.routes.filter (fun r => r.contains addr)).foldlM
    (fun old new =>
      match old with
      | none => some (some new)
      | some o => (o.most_precise new).map some)
    none

/-- `RoutingTable::default_gateways_for_netif`. -/
def RoutingTable.default_gateways_for_netif (self : RoutingTable) (net_if : String) :
    Option (List IpAddr) :=
  listLookup self.if_router net_if

-- Decidable equality on `Except`, for evaluating concrete parses inside proofs.
deriving instance DecidableEq for Except

/-! ## Spec-side definitions (stated from the spec's words, for comparison) -/

/-- Address family of an `IpAddr`, as the spec's resolver rule names it. -/
def IpAddr.family : IpAddr → Protocol
  | .V4 _ => .V4
  | .V6 _ => .V6

/-- The spec's candidate filter (section 4.5 step 1), stated from the
spec's words. -/
def specCandidate (r : RouteEntry) (a : IpAddr) : Prop :=
  (∃ c, r.dest.entity = .Cidr c ∧ c.contains a = true) ∨
  (r.dest.entity = .Default ∧ (∃ c, r.gateway.entity = .Cidr c) ∧ r.proto = a.family) ∨
  (r.dest.entity = .Default ∧
    ((∃ s, r.gateway.entity = .Link s) ∨ (∃ mc, r.gateway.entity = .Mac mc)))

/-- The spec's default-gateway index (section 4.4/8): contributions of the
routes, in parse order. -/
def specDefaultGateways (routes : List RouteEntry) (k : String) : List IpAddr :=
  routes.filterMap (fun r =>
    match r.dest.entity, r.gateway.entity with
    | .Default, .Cidr c =>
      if r.net_if = k ∧ c.is_host_address = true then c.first_address else none
    | _, _ => none)

/-- An interface with no contribution maps to no result. -/
def listToOpt (l : List IpAddr) : Option (List IpAddr) :=
  if l = [] then none else some l

/-- The five header names `RouteEntry::parse` recognizes. -/
def recognizedHeader (h : String) : Bool :=
  h == "Destination" || h == "Gateway" || h == "Flags" || h == "Netif" || h == "Expire"

theorem parseUIntCore_all_digits {cs : List Char} {b n : Nat}
    (h : parseUIntCore cs b = some n) : ∀ c ∈ cs, c.isDigit = true := by
  unfold parseUIntCore at h
  split at h
  · next hcond => exact fun c hc => List.all_eq_true.1 hcond.2.1 c hc
  · simp at h

theorem parseU8_chars {s : String} {n : Nat} (h : parseU8 s = some n) :
    ∀ c ∈ s.data, c = '+' ∨ c.isDigit = true := by
  intro c hc
  unfold parseU8 at h
  have hall := parseUIntCore_all_digits h
  rcases hd : s.data with _ | ⟨c0, rest⟩
  · rw [hd] at hc; simp at hc
  · rw [hd] at hc hall
    by_cases hplus : c0 = '+'
    · subst hplus
      rcases List.mem_cons.1 hc with rfl | hc
      · exact .inl rfl
      · exact .inr (hall c (by simpa [stripPlus] using hc))
    · exact .inr (hall c (by simpa [stripPlus, hplus] using hc))

theorem expectChar_eq {c : Char} {cs r : List Char} (h : expectChar c cs = some r) :
    cs = c :: r := by
  unfold expectChar at h
  rcases cs with _ | ⟨x, rest⟩
  · simp at h
  · by_cases hx : x = c
    · subst hx; simp at h; rw [h]
    · simp [hx] at h

theorem readOctet_rest {cs : List Char} {v : Nat} {r : List Char}
    (h : readOctet cs = some (v, r)) : r = cs.drop (cs.takeWhile Char.isDigit).length := by
  simp only [readOctet] at h
  split at h
  · simp at h
  · split at h
    · simp at h
    · split at h
      · simp at h
      · split at h
        · simp at h
        · simp only [Option.some.injEq, Prod.mk.injEq] at h
          exact h.2.symm

theorem readIpv4At_dot {cs : List Char} {x : Nat × List Char}
    (h : readIpv4At cs = some x) : '.' ∈ cs := by
  unfold readIpv4At at h
  split at h
  · simp at h
  · rename_i a r1 h1
    split at h
    · simp at h
    · rename_i r2 h2
      have hr1 : r1 = '.' :: r2 := expectChar_eq h2
      have hmem : '.' ∈ r1 := by rw [hr1]; simp
      rw [readOctet_rest h1] at hmem
      exact List.drop_subset _ _ hmem

theorem splitBy_eq_single {p : Char → Bool} {cs : List Char}
    (h : ∀ c ∈ cs, p c = false) : splitBy p cs = [cs] := by
  induction cs with
  | nil => rfl
  | cons c rest ih =>
    have hc : p c = false := h c (by simp)
    have hr := ih (fun x hx => h x (by simp [hx]))
    simp [splitBy, hc, hr]

/-- Claim C3: when the strict dotted-quad parse fails, `parse_ipv4dest`
packs the dot-separated `u8` parts BSD `inet_addr`-style (1 part →
`0.0.0.p0`, 2 → `p0.0.0.p1`, 3 → `p0.p1.0.p2`), any other part count is the
typed invalid-component-count error, a non-byte part is the typed
bad-integer error carrying the token, and a success is wrapped by
`parse_simple_destination` as a single-host V4 CIDR. -/
theorem ipv4_shorthand (s : String) :
    (strictIpv4? s = none →
      (dotParts s = none → parse_ipv4dest s = .error (.ParseIPv4AddrBadInt s)) ∧
      (∀ p0, dotParts s = some [p0] → parse_ipv4dest s = .ok (pack4 0 0 0 p0)) ∧
      (∀ p0 p1, dotParts s = some [p0, p1] → parse_ipv4dest s = .ok (pack4 p0 0 0 p1)) ∧
      (∀ p0 p1 p2, dotParts s = some [p0, p1, p2] →
        parse_ipv4dest s = .ok (pack4 p0 p1 0 p2)) ∧
      (∀ parts, dotParts s = some parts → parts.length = 0 ∨ 3 < parts.length →
        parse_ipv4dest s = .error (.ParseIPv4AddrNComps parts.length s))) ∧
    (∀ v, s ≠ "default" → s.data.contains '/' = false → parse_ipv4dest s = .ok v →
      parse_simple_destination s = .ok (.Cidr (.V4 v 32))) ∧
    parse_simple_destination "10" = .ok (.Cidr (.V4 (pack4 0 0 0 10) 32)) ∧
    parse_simple_destination "10.1" = .ok (.Cidr (.V4 (pack4 10 0 0 1) 32)) ∧
    parse_simple_destination "10.1.2" = .ok (.Cidr (.V4 (pack4 10 1 0 2) 32)) := by
  refine ⟨?_, ?_, by decide, by decide, by decide⟩
  · intro hstrict
    refine ⟨?_, ?_, ?_, ?_, ?_⟩
    · intro hdp; simp [parse_ipv4dest, hstrict, hdp]
    · intro p0 hdp; simp [parse_ipv4dest, hstrict, hdp]
    · intro p0 p1 hdp; simp [parse_ipv4dest, hstrict, hdp]
    · intro p0 p1 p2 hdp; simp [parse_ipv4dest, hstrict, hdp]
    · intro parts hdp hlen
      rcases parts with _ | ⟨a, _ | ⟨b, _ | ⟨c, _ | ⟨d, tl⟩⟩⟩⟩
      · simp [parse_ipv4dest, hstrict, hdp]
      · simp at hlen
      · simp at hlen
      · simp at hlen
      · simp [parse_ipv4dest, hstrict, hdp]
  · intro v hdef hslash hok
    by_cases hdot : s.data.contains '.'
    · simp only [parse_simple_destination, if_neg hdef, hslash, hdot, hok]
      simp [newHost]
    · by_cases hcolon : s.data.contains ':'
      · exfalso
        unfold parse_ipv4dest at hok
        cases hstrict : strictIpv4? s with
        | some w =>
          unfold strictIpv4? at hstrict
          have hdot2 : '.' ∈ s.data := by
            rcases h4 : readIpv4At s.data with _ | ⟨u, rest⟩
            · rw [h4] at hstrict; simp at hstrict
            · exact readIpv4At_dot h4
          rw [show (s.data.contains '.') = true by
            simpa using hdot2] at hdot
          simp at hdot
        | none =>
          rw [hstrict] at hok
          have hnodot : ∀ c ∈ s.data, (c == '.') = false := by
            intro c hc
            by_cases hcc : c = '.'
            · subst hcc
              rw [show (s.data.contains '.') = true by simpa using hc] at hdot
              simp at hdot
            · simp [hcc]
          have hsingle : splitBy (fun c => c == '.') s.data = [s.data] :=
            splitBy_eq_single hnodot
          cases hdp : dotParts s with
          | none => rw [hdp] at hok; simp at hok
          | some parts =>
            unfold dotParts at hdp
            rw [hsingle] at hdp
            simp only [List.mapM_cons, List.mapM_nil, Option.pure_def,
              Option.bind_eq_bind] at hdp
            cases hu : parseU8 (String.mk s.data) with
            | none => rw [hu] at hdp; simp at hdp
            | some n =>
              have hchars := parseU8_chars (s := String.mk s.data) (n := n) hu
              have hcmem : ':' ∈ s.data := by simpa using hcolon
              rcases hchars ':' hcmem with hcp | hcd
              · exact absurd hcp (by decide)
              · exact absurd hcd (by decide)
      · have hcolonF : s.data.contains ':' = false := by
          simpa using hcolon
        have hdotF : s.data.contains '.' = false := by
          simpa using hdot
        simp only [parse_simple_destination, if_neg hdef, hslash, hdotF, hcolonF, hok]
        simp [newHost]

theorem newHost_ne_any (a : IpAddr) : newHost a ≠ .Any := by
  cases a <;> simp [newHost]

theorem cidrNew_ne_any {a : IpAddr} {l : Nat} {c : AnyIpCidr}
    (h : cidrNew a l = some c) : c ≠ .Any := by
  cases a with
  | V4 v =>
    simp only [cidrNew] at h
    split at h
    · injection h with h
      rw [← h]
      simp
    · simp at h
  | V6 v =>
    simp only [cidrNew] at h
    split at h
    · injection h with h
      rw [← h]
      simp
    · simp at h

theorem anyIpCidrFromStr_slash_ne_any {s : String} {c : AnyIpCidr}
    (hs : s.data.contains '/' = true) (h : anyIpCidrFromStr s = some c) : c ≠ .Any := by
  have hne : s ≠ "any" := by
    intro he
    subst he
    simp at hs
  unfold anyIpCidrFromStr at h
  rw [if_neg hne] at h
  split at h
  · cases hp : parseIpAddr s with
    | none => rw [hp] at h; simp at h
    | some a =>
      rw [hp] at h
      simp only [Option.map_some'] at h
      injection h with h
      rw [← h]
      exact newHost_ne_any a
  · rename_i pos hpos
    split at h
    · simp at h
    · split at h
      · simp at h
      · exact cidrNew_ne_any h

theorem parse_simple_no_any {s : String} {e : Entity}
    (h : parse_simple_destination s = .ok e) : ∀ c, e = .Cidr c → c ≠ .Any := by
  intro c hc hany
  subst hc
  subst hany
  unfold parse_simple_destination at h
  split at h
  · simp at h
  · split at h
    · rename_i hslash
      cases ha : anyIpCidrFromStr s with
      | none => rw [ha] at h; simp at h
      | some c' =>
        rw [ha] at h
        injection h with h
        injection h with h
        exact anyIpCidrFromStr_slash_ne_any hslash ha h
    · split at h
      · cases hp : parse_ipv4dest s with
        | ok v =>
          rw [hp] at h
          injection h with h
          injection h with h
          exact newHost_ne_any (.V4 v) h
        | error e' =>
          rw [hp] at h
          split at h
          · rename_i v heq
            simp at heq
          · split at h
            · simp at h
            · simp at h
      · split at h
        · cases hp : parseIpv6 s with
          | none =>
            rw [hp] at h
            split at h
            · rename_i v heq
              simp at heq
            · split at h
              · simp at h
              · simp at h
          | some v =>
            rw [hp] at h
            injection h with h
            injection h with h
            exact newHost_ne_any (.V6 v) h
        · cases hp : parse_ipv4dest s with
          | ok v =>
            rw [hp] at h
            injection h with h
            injection h with h
            exact newHost_ne_any (.V4 v) h
          | error e' => rw [hp] at h; simp at h

theorem findIdx?_some_mem {l : List Char} {p : Char → Bool} {i : Nat}
    (h : l.findIdx? p = some i) : ∃ x ∈ l, p x = true := by
  by_contra hall
  push_neg at hall
  have : l.findIdx? p = none := List.findIdx?_eq_none_iff.2 fun x hx => by
    simpa using hall x hx
  rw [this] at h
  simp at h

/-- Claim C4 (amended): every `Cidr` entity produced by
`parse_simple_destination` is concrete (never the family-agnostic `Any`),
and a `Cidr Any` can escape `parse_destination` only for a token containing
a `%` zone marker (such as `any%x`, see the counterexample); on entries
whose destination `Cidr`s are concrete `most_precise` never reaches its
panicking branches, and a host-address `Cidr` always has a first
address. -/
theorem cidr_entities_concrete :
    (∀ s e c, parse_simple_destination s = .ok e → e = .Cidr c → c ≠ .Any) ∧
    (∀ s d c, parse_destination s = .ok d → d.entity = .Cidr c → c = .Any →
      s.data.contains '%' = true) ∧
    (∀ a b : RouteEntry,
      (∀ c, a.dest.entity = .Cidr c → c ≠ .Any) →
      (∀ c, b.dest.entity = .Cidr c → c ≠ .Any) →
      (a.most_precise b).isSome = true) ∧
    (∀ c : AnyIpCidr, c.is_host_address = true → c.first_address.isSome = true) := by
  refine ⟨fun s e c h => parse_simple_no_any h c, ?_, ?_, ?_⟩
  · intro s d c h hd hany
    subst hany
    unfold parse_destination at h
    split at h
    · injection h with h
      rw [← h] at hd
      simp at hd
    · split at h
      · rename_i pos hpos
        obtain ⟨x, hx, hpx⟩ := findIdx?_some_mem hpos
        have : x = '%' := by simpa using hpx
        subst this
        simpa using hx
      · rename_i hpos
        cases hp : parse_simple_destination s with
        | ok e =>
          rw [hp] at h
          injection h with h
          rw [← h] at hd
          exact absurd rfl (parse_simple_no_any hp _ hd)
        | error e' => rw [hp] at h; simp at h
  · intro a b ha hb
    unfold RouteEntry.most_precise
    cases hda : a.dest.entity with
    | Mac m => simp
    | Link s => cases hdb : b.dest.entity <;> simp
    | Default => cases hdb : b.dest.entity <;> simp
    | Cidr ca =>
      cases hdb : b.dest.entity with
      | Mac m => simp
      | Link s => simp
      | Default => simp
      | Cidr cb =>
        have hca : ca ≠ .Any := ha ca hda
        have hcb : cb ≠ .Any := hb cb hdb
        cases ca <;> cases cb <;>
          simp_all [AnyIpCidr.network_length] <;>
          split <;> simp
  · intro c h
    cases c <;> simp_all [AnyIpCidr.is_host_address, AnyIpCidr.first_address]

/-- Claim C4 counterexample: the destination parser emits the
family-agnostic `Any` wildcard for the token `any%x`, a table built from
such rows carries `Cidr Any` destinations, and resolving any address
against two such rows reaches the `most_precise` panic (the outer `none`). -/
theorem any_wildcard_reachable :
    parse_destination "any%x" = .ok ⟨.Cidr .Any, some "%x"⟩ ∧
    (∃ rt, RoutingTable.from_netstat_output
        "Internet:\nDestination Gateway Netif\nany%x 1.2.3.4 en0\nany%x 1.2.3.4 en0\n"
        = .ok rt ∧
      (∃ r ∈ rt.routes, r.dest.entity = .Cidr .Any) ∧
      rt.find_route_entry (.V4 0) = none) := by
  refine ⟨by decide, ⟨⟨[⟨.V4, ⟨.Cidr .Any, some "%x"⟩, ⟨.Cidr (.V4 16909060 32), none⟩,
    [], "en0", none⟩, ⟨.V4, ⟨.Cidr .Any, some "%x"⟩, ⟨.Cidr (.V4 16909060 32), none⟩,
    [], "en0", none⟩], []⟩, by decide, ⟨⟨.V4, ⟨.Cidr .Any, some "%x"⟩,
    ⟨.Cidr (.V4 16909060 32), none⟩, [], "en0", none⟩, by decide, by decide⟩, by decide⟩⟩

/-- Claim C6: parsing the destination token `10.1.2.3.4` with the legacy
IPv4 shorthand parser yields the typed invalid-component-count error with
component count 5. -/
theorem five_component_count_error :
    parse_ipv4dest "10.1.2.3.4" = .error (.ParseIPv4AddrNComps 5 "10.1.2.3.4") := by
  decide

/-- Claim C7 counterexample: a section marker immediately followed by
another section marker does NOT yield the missing-headers error — the
second marker is consumed as the header line and the parse succeeds with an
empty table. -/
theorem marker_after_marker_parses :
    RoutingTable.from_netstat_output "Internet:\nInternet6:\n" = .ok ⟨[], []⟩ := by
  decide

/-- Claim C7 (amended): a protocol-section marker sets the current
protocol and consumes the immediately following line — whatever it is,
even another section marker — as the new whitespace-split header list; only
when the marker is the last line of the input does `from_netstat_output`
return the missing-headers error naming that section. -/
theorem section_marker_headers :
    (∀ (hline : String) (rest headers : List String) (routes : List RouteEntry)
        (proto : Option Protocol) (m : List (String × List IpAddr)),
      buildLoop ("Internet:" :: hline :: rest) headers routes proto m =
        buildLoop rest (splitAsciiWhitespace hline) routes (some .V4) m) ∧
    (∀ (hline : String) (rest headers : List String) (routes : List RouteEntry)
        (proto : Option Protocol) (m : List (String × List IpAddr)),
      buildLoop ("Internet6:" :: hline :: rest) headers routes proto m =
        buildLoop rest (splitAsciiWhitespace hline) routes (some .V6) m) ∧
    (∀ (headers : List String) (routes : List RouteEntry) (proto : Option Protocol)
        (m : List (String × List IpAddr)),
      buildLoop ["Internet:"] headers routes proto m =
        .error (.NetstatParseNoHeaders "Internet:")) ∧
    (∀ (headers : List String) (routes : List RouteEntry) (proto : Option Protocol)
        (m : List (String × List IpAddr)),
      buildLoop ["Internet6:"] headers routes proto m =
        .error (.NetstatParseNoHeaders "Internet6:")) ∧
    RoutingTable.from_netstat_output "Internet:" =
      .error (.NetstatParseNoHeaders "Internet:") := by
  exact ⟨fun _ _ _ _ _ _ => rfl, fun _ _ _ _ _ _ => rfl, fun _ _ _ _ => rfl,
    fun _ _ _ _ => rfl, by decide⟩

theorem buildLoop_skip_all {pre : List String} (hpre : ∀ q ∈ pre, skipLine q = true)
    (tail headers : List String) (routes : List RouteEntry)
    (m : List (String × List IpAddr)) :
    buildLoop (pre ++ tail) headers routes none m = buildLoop tail headers routes none m := by
  induction pre with
  | nil => rfl
  | cons q pre ih =>
    have hq : skipLine q = true := hpre q (by simp)
    rw [List.cons_append]
    rw [show buildLoop (q :: (pre ++ tail)) headers routes none m =
      buildLoop (pre ++ tail) headers routes none m by
        rw [buildLoop.eq_def]
        simp only [hq]
        rfl]
    exact ih (fun x hx => hpre x (by simp [hx]))

/-- Claim C8: the whole-snapshot parse is fail-fast: any non-empty,
non-banner, non-marker line before the first section marker makes
`from_netstat_output` return the entry-before-protocol error; a data row
that fails route-line parsing aborts the loop with the wrapped parse error;
and a marker with no following line aborts with the missing-headers
error. -/
theorem fail_fast_whole_or_nothing :
    (∀ (out : String) (pre post : List String) (line : String),
      rustLines out = pre ++ line :: post →
      (∀ q ∈ pre, skipLine q = true) →
      skipLine line = false → line ≠ "Internet:" → line ≠ "Internet6:" →
      RoutingTable.from_netstat_output out = .error .EntryBeforeProto) ∧
    (∀ (line : String) (rest headers : List String) (routes : List RouteEntry)
        (p : Protocol) (m : List (String × List IpAddr)) (e : RError),
      skipLine line = false → line ≠ "Internet:" → line ≠ "Internet6:" →
      RouteEntry.parse p line headers = .error e →
      buildLoop (line :: rest) headers routes (some p) m = .error (.RouteEntryParse e)) ∧
    (∀ (headers : List String) (routes : List RouteEntry) (proto : Option Protocol)
        (m : List (String × List IpAddr)) (marker : String),
      marker = "Internet:" ∨ marker = "Internet6:" →
      buildLoop [marker] headers routes proto m =
        .error (.NetstatParseNoHeaders marker)) ∧
    RoutingTable.from_netstat_output "\nextra stuff\nInternet:\nDestination Gateway Netif\n" =
      .error .EntryBeforeProto := by
  refine ⟨?_, ?_, ?_, by decide⟩
  · intro out pre post line hlines hpre hskip hm4 hm6
    unfold RoutingTable.from_netstat_output
    rw [hlines, buildLoop_skip_all hpre]
    rw [buildLoop.eq_def]
    simp only [hskip]
    rw [if_neg (by simp), if_neg hm4, if_neg hm6]
  · intro line rest headers routes p m e hskip hm4 hm6 hparse
    rw [buildLoop.eq_def]
    simp only [hskip]
    rw [if_neg (by simp), if_neg hm4, if_neg hm6, hparse]
  · intro headers routes proto m marker hm
    rcases hm with rfl | rfl <;> rfl

theorem listLookup_mapUpsert (m : List (String × List IpAddr)) (k0 k : String) (a : IpAddr) :
    listLookup (mapUpsert m k0 a) k =
      if k0 = k then some ((listLookup m k0).getD [] ++ [a]) else listLookup m k := by
  induction m with
  | nil =>
    by_cases h : k0 = k <;> simp [mapUpsert, listLookup, h]
  | cons hd tl ih =>
    obtain ⟨k', l⟩ := hd
    by_cases h1 : k' = k0
    · subst h1
      by_cases h2 : k' = k
      · subst h2
        simp [mapUpsert, listLookup]
      · have hk : ¬k' = k := h2
        simp only [mapUpsert, if_pos rfl, listLookup, hk, if_neg hk, if_false]
    · by_cases h2 : k' = k
      · subst h2
        have hk : ¬k0 = k' := fun h => h1 h.symm
        simp [mapUpsert, listLookup, h1, hk]
      · simp [mapUpsert, listLookup, h1, h2, ih]

theorem gwStep_contrib_eq {routes : List RouteEntry} {k : String}
    (route : RouteEntry) :
    specDefaultGateways (routes ++ [route]) k =
      specDefaultGateways routes k ++ specDefaultGateways [route] k := by
  simp [specDefaultGateways, List.filterMap_append]

theorem listToOpt_getD (l : List IpAddr) : (listToOpt l).getD [] = l := by
  unfold listToOpt
  split
  · simp_all
  · simp

theorem gwStep_inv {m : List (String × List IpAddr)} {routes : List RouteEntry}
    (hinv : ∀ k, listLookup m k = listToOpt (specDefaultGateways routes k))
    (route : RouteEntry) :
    ∀ k, listLookup (gwStep m route) k =
      listToOpt (specDefaultGateways (routes ++ [route]) k) := by
  intro k
  rw [gwStep_contrib_eq route]
  cases hde : route.dest.entity with
  | Default =>
    cases hge : route.gateway.entity with
    | Cidr c =>
      by_cases hhost : c.is_host_address = true
      · have hfa : ∃ gw, c.first_address = some gw ∧ specDefaultGateways [route] k =
            (if route.net_if = k then [gw] else []) := by
          cases c with
          | Any => simp [AnyIpCidr.is_host_address] at hhost
          | V4 n l =>
            refine ⟨.V4 n, rfl, ?_⟩
            simp only [specDefaultGateways, List.filterMap, hde, hge, hhost]
            by_cases hk : route.net_if = k <;>
              simp [hk, AnyIpCidr.first_address]
          | V6 n l =>
            refine ⟨.V6 n, rfl, ?_⟩
            simp only [specDefaultGateways, List.filterMap, hde, hge, hhost]
            by_cases hk : route.net_if = k <;>
              simp [hk, AnyIpCidr.first_address]
        obtain ⟨gw, hfa, hcontrib⟩ := hfa
        simp only [gwStep, hde, hge, hhost, if_true, hfa]
        rw [listLookup_mapUpsert, hcontrib]
        by_cases hk : route.net_if = k
        · rw [if_pos hk, hinv route.net_if, listToOpt_getD, hk]
          simp [listToOpt]
        · rw [if_neg hk, if_neg hk]
          simp [hinv k]
      · have hg : gwStep m route = m := by
          simp only [gwStep, hde, hge]
          rw [if_neg hhost]
        have hc : specDefaultGateways [route] k = [] := by
          simp only [specDefaultGateways, List.filterMap, hde, hge]
          rw [if_neg (fun hand => hhost hand.2)]
        rw [hg, hc]
        simp [hinv k]
    | Default =>
      have hg : gwStep m route = m := by simp only [gwStep, hde, hge]
      have hc : specDefaultGateways [route] k = [] := by
        simp only [specDefaultGateways, List.filterMap, hde, hge]
      rw [hg, hc]
      simp [hinv k]
    | Link str =>
      have hg : gwStep m route = m := by simp only [gwStep, hde, hge]
      have hc : specDefaultGateways [route] k = [] := by
        simp only [specDefaultGateways, List.filterMap, hde, hge]
      rw [hg, hc]
      simp [hinv k]
    | Mac mc =>
      have hg : gwStep m route = m := by simp only [gwStep, hde, hge]
      have hc : specDefaultGateways [route] k = [] := by
        simp only [specDefaultGateways, List.filterMap, hde, hge]
      rw [hg, hc]
      simp [hinv k]
  | Cidr c =>
    have hg : gwStep m route = m := by simp only [gwStep, hde]
    have hc : specDefaultGateways [route] k = [] := by
      simp only [specDefaultGateways, List.filterMap, hde]
    rw [hg, hc]
    simp [hinv k]
  | Link str =>
    have hg : gwStep m route = m := by simp only [gwStep, hde]
    have hc : specDefaultGateways [route] k = [] := by
      simp only [specDefaultGateways, List.filterMap, hde]
    rw [hg, hc]
    simp [hinv k]
  | Mac mc =>
    have hg : gwStep m route = m := by simp only [gwStep, hde]
    have hc : specDefaultGateways [route] k = [] := by
      simp only [specDefaultGateways, List.filterMap, hde]
    rw [hg, hc]
    simp [hinv k]

theorem buildLoop_gw_inv (lines headers : List String) (routes : List RouteEntry)
    (proto : Option Protocol) (m : List (String × List IpAddr)) :
    ∀ rt, buildLoop lines headers routes proto m = .ok rt →
      (∀ k, listLookup m k = listToOpt (specDefaultGateways routes k)) →
      ∀ k, listLookup rt.if_router k = listToOpt (specDefaultGateways rt.routes k) := by
  induction lines, headers, routes, proto, m using buildLoop.induct with
  | case1 headers routes proto m =>
    intro rt hok hinv
    injection hok with h
    rw [← h]
    exact hinv
  | case2 line rest headers routes proto m hq ih =>
    intro rt hok hinv
    refine ih rt ?_ hinv
    rw [show buildLoop (line :: rest) headers routes proto m =
      buildLoop rest headers routes proto m by
        rw [buildLoop.eq_def]
        simp only [hq]
        rfl] at hok
    exact hok
  | case3 headers routes proto m hskip =>
    intro rt hok hinv
    rw [show buildLoop ["Internet:"] headers routes proto m =
      Except.error (.NetstatParseNoHeaders "Internet:") from rfl] at hok
    cases hok
  | case4 headers routes proto m hline rest2 hskip ih =>
    intro rt hok hinv
    exact ih rt hok hinv
  | case5 headers routes proto m hskip hne =>
    intro rt hok hinv
    rw [show buildLoop ["Internet6:"] headers routes proto m =
      Except.error (.NetstatParseNoHeaders "Internet6:") from rfl] at hok
    cases hok
  | case6 headers routes proto m hline rest2 hskip hne ih =>
    intro rt hok hinv
    exact ih rt hok hinv
  | case7 line rest headers routes m hskip hm4 hm6 =>
    intro rt hok hinv
    rw [show buildLoop (line :: rest) headers routes none m =
      Except.error .EntryBeforeProto by
        rw [buildLoop.eq_def]
        dsimp only
        rw [if_neg hskip, if_neg hm4, if_neg hm6]] at hok
    cases hok
  | case8 line rest headers routes m hskip hm4 hm6 p e hparse =>
    intro rt hok hinv
    rw [show buildLoop (line :: rest) headers routes (some p) m =
      Except.error (.RouteEntryParse e) by
        rw [buildLoop.eq_def]
        dsimp only
        rw [if_neg hskip, if_neg hm4, if_neg hm6, hparse]] at hok
    cases hok
  | case9 line rest headers routes m hskip hm4 hm6 p route hparse ih =>
    intro rt hok hinv
    refine ih rt ?_ (gwStep_inv hinv route)
    rw [show buildLoop (line :: rest) headers routes (some p) m =
      buildLoop rest headers (routes ++ [route]) (some p) (gwStep m route) by
        rw [buildLoop.eq_def]
        dsimp only
        rw [if_neg hskip, if_neg hm4, if_neg hm6, hparse]] at hok
    exact hok

/-- Claim C5: a parsed row whose destination is `Default` and whose
gateway is a single-host `Cidr` appends its gateway address to the
default-gateway index under the row's interface, the row is appended to the
route list regardless, and `default_gateways_for_netif` returns the parse-
ordered contributions of an interface, `none` when it contributed none. -/
theorem default_gateway_index :
    (∀ (line : String) (rest headers : List String) (routes : List RouteEntry)
        (p : Protocol) (m : List (String × List IpAddr)) (route : RouteEntry),
      skipLine line = false → line ≠ "Internet:" → line ≠ "Internet6:" →
      RouteEntry.parse p line headers = .ok route →
      buildLoop (line :: rest) headers routes (some p) m =
        buildLoop rest headers (routes ++ [route]) (some p) (gwStep m route)) ∧
    (∀ (out : String) (rt : RoutingTable) (k : String),
      RoutingTable.from_netstat_output out = .ok rt →
      rt.default_gateways_for_netif k = listToOpt (specDefaultGateways rt.routes k)) ∧
    (RoutingTable.from_netstat_output "Internet:\nDestination Gateway Netif\ndefault 1.2.3.4 en0\n" =
      .ok ⟨[⟨.V4, ⟨.Default, none⟩, ⟨.Cidr (.V4 16909060 32), none⟩, [], "en0", none⟩],
        [("en0", [.V4 16909060])]⟩ ∧
      (RoutingTable.mk
          [⟨.V4, ⟨.Default, none⟩, ⟨.Cidr (.V4 16909060 32), none⟩, [], "en0", none⟩]
          [("en0", [.V4 16909060])]).default_gateways_for_netif "en0" =
        some [.V4 16909060] ∧
      (RoutingTable.mk
          [⟨.V4, ⟨.Default, none⟩, ⟨.Cidr (.V4 16909060 32), none⟩, [], "en0", none⟩]
          [("en0", [.V4 16909060])]).default_gateways_for_netif "en1" = none) := by
  refine ⟨?_, ?_, by decide, by decide, by decide⟩
  · intro line rest headers routes p m route hskip hm4 hm6 hparse
    rw [buildLoop.eq_def]
    dsimp only
    rw [if_neg (by simp [hskip]), if_neg hm4, if_neg hm6, hparse]
  · intro out rt k hok
    exact buildLoop_gw_inv _ _ _ _ _ rt hok (fun k => rfl) k

theorem zip_take_left (l1 l2 : List String) :
    (l1.take l2.length).zip l2 = l1.zip l2 := by
  induction l1 generalizing l2 with
  | nil => simp
  | cons a l1 ih =>
    cases l2 with
    | nil => simp
    | cons b l2 => simp [ih]

theorem zip_take_right (l1 l2 : List String) :
    l1.zip (l2.take l1.length) = l1.zip l2 := by
  induction l1 generalizing l2 with
  | nil => simp
  | cons a l1 ih =>
    cases l2 with
    | nil => simp
    | cons b l2 => simp [ih]

theorem scanFields_absent (ps : List (String × String)) :
    ∀ (st st' : ScanState), scanFields ps st = .ok st' →
    ((∀ q ∈ ps, q.1 ≠ "Destination") → st'.dest = st.dest) ∧
    ((∀ q ∈ ps, q.1 ≠ "Gateway") → st'.gateway = st.gateway) ∧
    ((∀ q ∈ ps, q.1 ≠ "Netif") → st'.net_if = st.net_if) := by
  induction ps with
  | nil =>
    intro st st' h
    injection h with h
    subst h
    exact ⟨fun _ => rfl, fun _ => rfl, fun _ => rfl⟩
  | cons q rest ih =>
    intro st st' h
    obtain ⟨hdr, fld⟩ := q
    have htail : ∀ (s : String),
        (∀ x ∈ (hdr, fld) :: rest, x.1 ≠ s) → ∀ x ∈ rest, x.1 ≠ s :=
      fun s hall x hx => hall x (by simp [hx])
    have hhead : ∀ (s : String), hdr = s → ¬∀ x ∈ (hdr, fld) :: rest, x.1 ≠ s :=
      fun s hs hall => absurd hs (hall (hdr, fld) (by simp))
    by_cases h1 : hdr = "Destination"
    · subst h1
      rw [scanFields, if_pos rfl] at h
      cases hp : parse_destination fld with
      | error e => rw [hp] at h; cases h
      | ok d =>
        rw [hp] at h
        obtain ⟨ihd, ihg, ihn⟩ := ih _ _ h
        exact ⟨fun hall => absurd (hhead _ rfl hall) not_false,
          fun hall => ihg (htail _ hall),
          fun hall => ihn (htail _ hall)⟩
    · by_cases h2 : hdr = "Gateway"
      · subst h2
        rw [scanFields, if_neg (by simp), if_pos rfl] at h
        cases hp : parse_destination fld with
        | error e => rw [hp] at h; cases h
        | ok d =>
          rw [hp] at h
          obtain ⟨ihd, ihg, ihn⟩ := ih _ _ h
          exact ⟨fun hall => ihd (htail _ hall),
            fun hall => absurd (hhead _ rfl hall) not_false,
            fun hall => ihn (htail _ hall)⟩
      · by_cases h3 : hdr = "Flags"
        · subst h3
          rw [scanFields, if_neg (by simp), if_neg (by simp), if_pos rfl] at h
          obtain ⟨ihd, ihg, ihn⟩ := ih _ _ h
          exact ⟨fun hall => ihd (htail _ hall),
            fun hall => ihg (htail _ hall),
            fun hall => ihn (htail _ hall)⟩
        · by_cases h4 : hdr = "Netif"
          · subst h4
            rw [scanFields, if_neg (by simp), if_neg (by simp), if_neg (by simp),
              if_pos rfl] at h
            obtain ⟨ihd, ihg, ihn⟩ := ih _ _ h
            exact ⟨fun hall => ihd (htail _ hall),
              fun hall => ihg (htail _ hall),
              fun hall => absurd (hhead _ rfl hall) not_false⟩
          · by_cases h5 : hdr = "Expire"
            · subst h5
              rw [scanFields, if_neg (by simp), if_neg (by simp), if_neg (by simp),
                if_neg (by simp), if_pos rfl] at h
              cases hp : parse_expire fld with
              | error e => rw [hp] at h; cases h
              | ok exp =>
                rw [hp] at h
                obtain ⟨ihd, ihg, ihn⟩ := ih _ _ h
                exact ⟨fun hall => ihd (htail _ hall),
                  fun hall => ihg (htail _ hall),
                  fun hall => ihn (htail _ hall)⟩
            · rw [scanFields, if_neg h1, if_neg h2, if_neg h3, if_neg h4, if_neg h5] at h
              obtain ⟨ihd, ihg, ihn⟩ := ih _ _ h
              exact ⟨fun hall => ihd (htail _ hall),
                fun hall => ihg (htail _ hall),
                fun hall => ihn (htail _ hall)⟩

/-- Claim C9: `RouteEntry::parse` splits the row on whitespace and pairs
fields with headers strictly by position, ignoring unrecognized header
names and any excess headers or fields beyond the shorter list; after the
scan, an absent Destination, Gateway or Netif column is left unset and each
yields its own distinct typed error, with no default substituted. -/
theorem route_line_positional_pairing :
    (∀ (p : Protocol) (line : String) (headers : List String),
      RouteEntry.parse p line headers =
        parseFields p (splitAsciiWhitespace line) headers) ∧
    (∀ (p : Protocol) (fields headers : List String),
      parseFields p fields (headers.take fields.length) = parseFields p fields headers) ∧
    (∀ (p : Protocol) (fields headers : List String),
      parseFields p (fields.take headers.length) headers = parseFields p fields headers) ∧
    (∀ (hdr fld : String) (rest : List (String × String)) (st : ScanState),
      recognizedHeader hdr = false →
      scanFields ((hdr, fld) :: rest) st = scanFields rest st) ∧
    (∀ (fields headers : List String) (st' : ScanState),
      scanFields (headers.zip fields) initScan = .ok st' →
      ("Destination" ∉ headers → st'.dest = none) ∧
      ("Gateway" ∉ headers → st'.gateway = none) ∧
      ("Netif" ∉ headers → st'.net_if = none)) ∧
    (∀ (p : Protocol) (st : ScanState),
      (finalizeScan p st = .error .MissingDestination ↔ st.dest = none) ∧
      (finalizeScan p st = .error .MissingGateway ↔
        (∃ d, st.dest = some d) ∧ st.gateway = none) ∧
      (finalizeScan p st = .error .MissingInterface ↔
        (∃ d, st.dest = some d) ∧ (∃ g, st.gateway = some g) ∧ st.net_if = none)) ∧
    (RouteEntry.parse .V4 "default 1.2.3.4 en0" ["Destination", "Gateway", "Netif"] =
      .ok ⟨.V4, ⟨.Default, none⟩, ⟨.Cidr (.V4 16909060 32), none⟩, [], "en0", none⟩ ∧
      RouteEntry.parse .V4 "default 1.2.3.4 en0 extra junk"
        ["Destination", "Gateway", "Netif"] =
        .ok ⟨.V4, ⟨.Default, none⟩, ⟨.Cidr (.V4 16909060 32), none⟩, [], "en0", none⟩ ∧
      RouteEntry.parse .V4 "default 1.2.3.4 en0" ["Destination", "Gateway", "Netif", "Flags",
        "Expire"] = .ok ⟨.V4, ⟨.Default, none⟩, ⟨.Cidr (.V4 16909060 32), none⟩, [], "en0",
          none⟩ ∧
      RouteEntry.parse .V4 "1.2.3.4 x" ["Gateway", "Junk"] = .error .MissingDestination ∧
      RouteEntry.parse .V4 "default" ["Destination"] = .error .MissingGateway ∧
      RouteEntry.parse .V4 "default 1.2.3.4" ["Destination", "Gateway"] =
        .error .MissingInterface) := by
  refine ⟨fun _ _ _ => rfl, ?_, ?_, ?_, ?_, ?_,
    by decide, by decide, by decide, by decide, by decide, by decide⟩
  · intro p fields headers
    unfold parseFields
    rw [zip_take_left]
  · intro p fields headers
    unfold parseFields
    rw [zip_take_right]
  · intro hdr fld rest st h
    have h1 : hdr ≠ "Destination" := by rintro rfl; simp [recognizedHeader] at h
    have h2 : hdr ≠ "Gateway" := by rintro rfl; simp [recognizedHeader] at h
    have h3 : hdr ≠ "Flags" := by rintro rfl; simp [recognizedHeader] at h
    have h4 : hdr ≠ "Netif" := by rintro rfl; simp [recognizedHeader] at h
    have h5 : hdr ≠ "Expire" := by rintro rfl; simp [recognizedHeader] at h
    rw [scanFields, if_neg h1, if_neg h2, if_neg h3, if_neg h4, if_neg h5]
  · intro fields headers st' h
    obtain ⟨hd, hg, hn⟩ := scanFields_absent (headers.zip fields) initScan st' h
    refine ⟨fun habs => hd ?_, fun habs => hg ?_, fun habs => hn ?_⟩ <;>
      exact fun q hq hq1 => habs (hq1 ▸ (List.of_mem_zip hq).1)
  · intro p st
    obtain ⟨fl, fd, fg, fn, fe⟩ := st
    cases fd <;> cases fg <;> cases fn <;> simp [finalizeScan]

theorem splitBy_ne_nil (p : Char → Bool) (cs : List Char) : splitBy p cs ≠ [] := by
  cases cs with
  | nil => simp [splitBy]
  | cons c rest =>
    by_cases hc : p c = true
    · simp [splitBy, hc]
    · have hc' : p c = false := by simpa using hc
      simp only [splitBy, hc', Bool.false_eq_true, if_false]
      split <;> simp

theorem splitBy_headD (p : Char → Bool) (cs : List Char) :
    (splitBy p cs).headD [] = cs.takeWhile (fun c => !p c) := by
  induction cs with
  | nil => rfl
  | cons c rest ih =>
    by_cases hc : p c = true
    · simp [splitBy, hc, List.takeWhile_cons]
    · have hc' : p c = false := by simpa using hc
      simp only [splitBy, hc', Bool.false_eq_true, if_false, List.takeWhile_cons, Bool.not_false]
      rcases hsp : splitBy p rest with _ | ⟨hpc, t⟩
      · exact absurd hsp (splitBy_ne_nil p rest)
      · rw [hsp] at ih
        simp only [List.headD] at ih ⊢
        simp [ih]

/-- Claim C10: for a token containing `%` that does not start with
`link`, the zone stored by `parse_destination` is the substring beginning
at the `%` character itself up to (but excluding) the first following `/`
(so `fe80::1%en0` stores `%en0`); tokens without `%` and `link` tokens
store no zone. -/
theorem zone_extraction :
    (∀ (s : String) (d : Destination) (pos : Nat),
      startsWithStr s "link" = false →
      s.data.findIdx? (fun c => c == '%') = some pos →
      parse_destination s = .ok d →
      d.zone = some (String.mk ((s.data.drop pos).takeWhile (fun c => !(c == '/'))))) ∧
    (∀ (s : String) (d : Destination), s.data.contains '%' = false →
      parse_destination s = .ok d → d.zone = none) ∧
    (∀ (s : String) (d : Destination), startsWithStr s "link" = true →
      parse_destination s = .ok d → d.zone = none) ∧
    parse_destination "fe80::1%en0" =
      .ok ⟨.Cidr (.V6 0xfe800000000000000000000000000001 128), some "%en0"⟩ := by
  refine ⟨?_, ?_, ?_, by decide⟩
  · intro s d pos hlink hpos h
    unfold parse_destination at h
    rw [if_neg (by simp [hlink]), hpos] at h
    dsimp only at h
    rw [← splitBy_headD (fun c => c == '/') (s.data.drop pos)]
    cases ha : anyIpCidrFromStr (String.mk (s.data.take pos)) with
    | none => rw [ha] at h; cases h
    | some addr =>
      rw [ha] at h
      dsimp only at h
      cases hb : (splitBy (fun c => c == '/') (s.data.drop pos))[1]? with
      | none =>
        rw [hb] at h
        injection h with h
        rw [← h]
      | some bits =>
        rw [hb] at h
        dsimp only at h
        cases hp : parse_simple_destination (anyIpCidrDisplay addr ++ String.mk bits) with
        | error e => rw [hp] at h; cases h
        | ok e =>
          rw [hp] at h
          injection h with h
          rw [← h]
  · intro s d hpct h
    unfold parse_destination at h
    have hnone : s.data.findIdx? (fun c => c == '%') = none := by
      rw [List.findIdx?_eq_none_iff]
      intro x hx
      by_cases hxp : x = '%'
      · subst hxp
        rw [show s.data.contains '%' = true by simpa using hx] at hpct
        cases hpct
      · simp [hxp]
    rw [hnone] at h
    split at h
    · injection h with h
      rw [← h]
    · dsimp only at h
      cases hp : parse_simple_destination s with
      | error e => rw [hp] at h; cases h
      | ok e =>
        rw [hp] at h
        injection h with h
        rw [← h]
  · intro s d hlink h
    unfold parse_destination at h
    rw [if_pos hlink] at h
    injection h with h
    rw [← h]

theorem contains_iff_specCandidate (r : RouteEntry) (a : IpAddr) :
    r.contains a = true ↔ specCandidate r a := by
  obtain ⟨p, ⟨de, dz⟩, ⟨ge, gz⟩, fl, ni, ex⟩ := r
  cases de <;> cases ge <;> cases a <;> cases p <;>
    simp [RouteEntry.contains, specCandidate, IpAddr.family]

theorem findFold_ne_some_none (l : List RouteEntry) (o : RouteEntry) :
    (l.foldlM (fun old new =>
      match old with
      | none => some (some new)
      | some o => (o.most_precise new).map some) (some o)) ≠ some none := by
  induction l generalizing o with
  | nil => simp [List.foldlM]
  | cons x xs ih =>
    simp only [List.foldlM]
    cases hmp : o.most_precise x with
    | none => simp [hmp]
    | some o' =>
      simpa [hmp] using ih o'

/-- Claim C1: a stored route is a candidate for an address exactly when
its destination is a `Cidr` containing the address, or its destination is
`Default` with a `Cidr` gateway and a protocol matching the address family,
or its destination is `Default` with a `Link` or `Mac` gateway; and
`find_route_entry` returns `None` exactly when there are zero candidates. -/
theorem find_route_entry_candidates (rt : RoutingTable) (a : IpAddr) :
    (∀ r : RouteEntry, r.contains a = true ↔ specCandidate r a) ∧
    (rt.find_route_entry a = some none ↔ ∀ r ∈ rt.routes, ¬ specCandidate r a) := by
  refine ⟨fun r => contains_iff_specCandidate r a, ?_, ?_⟩
  · intro h r hr hc
    have hmem : r ∈ rt.routes.filter (fun r => r.contains a) :=
      List.mem_filter.2 ⟨hr, (contains_iff_specCandidate r a).2 hc⟩
    unfold RoutingTable.find_route_entry at h
    rcases hf : rt.routes.filter (fun r => r.contains a) with _ | ⟨x, xs⟩
    · rw [hf] at hmem; simp at hmem
    · rw [hf] at h
      simp only [List.foldlM] at h
      exact findFold_ne_some_none xs x h
  · intro h
    have hf : rt.routes.filter (fun r => r.contains a) = [] := by
      rw [List.filter_eq_nil_iff]
      intro r hr
      simp only [Bool.not_eq_true]
      rw [← Bool.not_eq_true]
      exact fun hc => h r hr ((contains_iff_specCandidate r a).1 hc)
    unfold RoutingTable.find_route_entry
    rw [hf]
    rfl

/-- Claim C2: `most_precise` returns `a` when `a`'s destination is `Mac`;
for a `Link` destination, `b` only when `b`'s destination is `Mac`; for two
`Cidr` destinations the longer prefix wins with ties to `a`; a `Cidr` loses
to `Mac`/`Link` and beats `Default`; a `Default` destination loses to
everything except another `Default`, where `a` wins. -/
theorem most_precise_cases (a b : RouteEntry) :
    (∀ mc, a.dest.entity = .Mac mc → a.most_precise b = some a) ∧
    (∀ s, a.dest.entity = .Link s →
      a.most_precise b = some (match b.dest.entity with | .Mac _ => b | _ => a)) ∧
    (∀ ca cb la lb, a.dest.entity = .Cidr ca → b.dest.entity = .Cidr cb →
      ca.network_length = some la → cb.network_length = some lb →
      a.most_precise b = some (if la < lb then b else a)) ∧
    (∀ ca, a.dest.entity = .Cidr ca →
      ((∃ mc, b.dest.entity = .Mac mc) ∨ (∃ s, b.dest.entity = .Link s)) →
      a.most_precise b = some b) ∧
    (∀ ca, a.dest.entity = .Cidr ca → b.dest.entity = .Default →
      a.most_precise b = some a) ∧
    (a.dest.entity = .Default →
      a.most_precise b = some (match b.dest.entity with | .Default => a | _ => b)) := by
  refine ⟨?_, ?_, ?_, ?_, ?_, ?_⟩
  · intro mc h
    simp [RouteEntry.most_precise, h]
  · intro s h
    cases hb : b.dest.entity <;> simp [RouteEntry.most_precise, h, hb]
  · intro ca cb la lb ha hb hla hlb
    simp only [RouteEntry.most_precise, ha, hb, hla, hlb]
    by_cases hc : lb ≤ la
    · rw [if_pos hc, if_neg (by omega)]
    · rw [if_neg hc, if_pos (by omega)]
  · intro ca ha hb
    rcases hb with ⟨mc, hb⟩ | ⟨s, hb⟩ <;> simp [RouteEntry.most_precise, ha, hb]
  · intro ca ha hb
    simp [RouteEntry.most_precise, ha, hb]
  · intro h
    cases hb : b.dest.entity <;> simp [RouteEntry.most_precise, h, hb]
